import Mathlib

/-!
Verification development for the concurrent-content-validation repository.

The definitions below are a shallow embedding of `src/validator/models.py`
and `src/main.py`:

* `LookerFolder` / `FolderList` model the in-memory folder forest built by
  `FolderTree._populate` (a node's `children` list plus an implicit parent
  back-pointer; here the parent chain is threaded through the traversal as
  the explicit `ancestors` argument, which is exactly the sequence of
  `content_metadata_id` values `LookerFolder.fetch_parent_chain` walks).
* Ids (`content_metadata_id`, dashboard ids, look ids) are modelled as
  integers; the nullable `content_metadata_id` is an `Option Int`, with
  Python truthiness of the id rendered as `Option.isSome` and the Python
  `None` rendered as `none`.  `int(x)` applied to a collected id fails
  exactly when the id is `none`, which the embedding renders by returning
  `Option.none` from the slicing functions (a raised exception in Python).
* `_parse_tree` / `FolderList._parse_tree` mirror
  `FolderTree._parse_tree` and the root loop of `FolderTree.slice`:
  the Python state triple `(query_ct, buffer, accumulator)` is threaded
  explicitly.
-/

/-- The mutable `buffer` dict of `FolderTree._parse_tree`:
`{'content': [], 'dashboards': [], 'looks': []}`.  Content entries are the
raw (possibly null) `content_metadata_id` values collected from parent
chains. -/
structure Buffer where
  content : List (Option Int)
  dashboards : List Int
  looks : List Int
  deriving DecidableEq, Repr

/-- The fresh buffer the Python code creates after each emission. -/
def Buffer.empty : Buffer := ⟨[], [], []⟩

/-- One emitted slice: the dict
`{"queries": ..., "content_metadata": ..., 'dashboards': ..., 'looks': ...}`
built at line 107 of `models.py`. -/
structure SliceData where
  queries : Nat
  content_metadata : List Int
  dashboards : List Int
  looks : List Int
  deriving DecidableEq, Repr

mutual
/-- A `LookerFolder` as used by the slicing algorithm: its (nullable)
`content_metadata_id`, its own `queries` count, the ids of its own
dashboards and looks, and its `children` list. -/
inductive LookerFolder : Type where
  | node (content_metadata_id : Option Int) (queries : Nat)
      (dashboards : List Int) (looks : List Int)
      (children : FolderList) : LookerFolder
/-- A list of folders (the `children` array, or the root folders of the
tree in insertion order). -/
inductive FolderList : Type where
  | nil : FolderList
  | cons (head : LookerFolder) (tail : FolderList) : FolderList
end

/-- Embeds `LookerFolder.fetch_parent_chain('content_metadata_id')`: the chain of
`content_metadata_id` values from a node up through every ancestor to its
root, passed through `list(set(...))`, i.e. deduplicated (the Python set
order is arbitrary and the result is only ever consumed as a set, so the
first-occurrence order of `List.dedup` is a faithful rendering). -/
def fetch_parent_chain (chain : List (Option Int)) : List (Option Int) :=
  chain.dedup

/-- Embeds `sorted(list(set(buffer['content'])), key=lambda x: int(x))` from line
107 of `models.py`: deduplicate the collected ids, fail (Python: raise)
if any of them is null, and sort the integer values ascending. -/
def collectInts : List (Option Int) → Option (List Int)
  | [] => some []
  | none :: _ => none
  | some x :: xs => (collectInts xs).map (fun l => x :: l)

def emitContent (content : List (Option Int)) : Option (List Int) :=
  (collectInts content.dedup).map (List.insertionSort (· ≤ ·))

/-- The running state `(query_ct, buffer, accumulator)` threaded through
`FolderTree._parse_tree`. -/
abbrev SliceState := Nat × Buffer × List SliceData

/-- The data of one visited node, as seen by the body of
`FolderTree._parse_tree`: the folder's own attributes plus its full
parent chain of `content_metadata_id` values (self first, root last). -/
structure Visit where
  content_metadata_id : Option Int
  queries : Nat
  dashboards : List Int
  looks : List Int
  chain : List (Option Int)
  deriving DecidableEq, Repr

/-- The body of `FolderTree._parse_tree` for a single visited node
(lines 101-110 of `models.py`), before the recursion into children:

1. `query_ct += folder.queries`
2. `if folder.content_metadata_id:` extend the buffer with
   `fetch_parent_chain`, the folder's dashboard ids and its look ids
3. `if query_ct >= threshold:` append the emitted slice to the
   accumulator and reset `query_ct`/`buffer`.

Returns `none` where the Python code raises (null id under `int(x)`). -/
def visitStep (threshold : Nat) (v : Visit) (st : SliceState) :
    Option SliceState :=
  let query_ct := st.1 + v.queries
  let buffer := st.2.1
  let accumulator := st.2.2
  let buffer :=
    if v.content_metadata_id.isSome then
      { content := buffer.content ++ fetch_parent_chain v.chain,
        dashboards := buffer.dashboards ++ v.dashboards,
        looks := buffer.looks ++ v.looks }
    else buffer
  if threshold ≤ query_ct then
    match emitContent buffer.content with
    | none => none
    | some cm =>
      some (0, Buffer.empty,
        accumulator ++ [⟨query_ct, cm, buffer.dashboards, buffer.looks⟩])
  else
    some (query_ct, buffer, accumulator)

mutual
/-- Embeds `FolderTree._parse_tree(folder, threshold, query_ct, buffer,
accumulator)`: visit the node, then recurse into each child in listing
order, threading the state forward.  `ancestors` is the chain of
`content_metadata_id` values of the folder's ancestors (parent first),
i.e. the part of `fetch_parent_chain` contributed by parent links. -/
def _parse_tree (f : LookerFolder) (threshold : Nat)
    (ancestors : List (Option Int)) (st : SliceState) : Option SliceState :=
  match f with
  | .node c q d l cs =>
    match visitStep threshold ⟨c, q, d, l, c :: ancestors⟩ st with
    | none => none
    | some st' => FolderList._parse_tree cs threshold (c :: ancestors) st'
/-- The fold of `_parse_tree` over a list of sibling folders (the
`for child in folder.children` loop, and the `for f in self.tree.values()
if f.parent is None` loop of `FolderTree.slice`). -/
def FolderList._parse_tree (fs : FolderList) (threshold : Nat)
    (ancestors : List (Option Int)) (st : SliceState) : Option SliceState :=
  match fs with
  | .nil => some st
  | .cons f rest =>
    match _parse_tree f threshold ancestors st with
    | none => none
    | some st' => FolderList._parse_tree rest threshold ancestors st'
end

mutual
/-- The depth-first pre-order visit sequence of a folder and its
descendants, recording for each node the data `_parse_tree` consumes. -/
def preorder (f : LookerFolder) (ancestors : List (Option Int)) :
    List Visit :=
  match f with
  | .node c q d l cs =>
    ⟨c, q, d, l, c :: ancestors⟩ :: FolderList.preorder cs (c :: ancestors)
/-- Pre-order visit sequence of a list of sibling folders. -/
def FolderList.preorder (fs : FolderList) (ancestors : List (Option Int)) :
    List Visit :=
  match fs with
  | .nil => []
  | .cons f rest =>
    preorder f ancestors ++ FolderList.preorder rest ancestors
end

/-- Embeds `FolderTree.total_queries`: the sum of every folder's own `queries`
(each folder of the forest occurs exactly once in the pre-order visit
sequence, matching the sum over `self.tree.values()`). -/
def FolderTree.total_queries (roots : FolderList) : Nat :=
  ((FolderList.preorder roots []).map Visit.queries).sum

/-- Embeds `threshold = (self.total_queries // n) + 1 if n > 1 else
self.total_queries` (line 120 of `models.py`). -/
def sliceThreshold (total_queries n : Nat) : Nat :=
  if 1 < n then total_queries / n + 1 else total_queries

/-- Embeds `FolderTree.slice(n)` including its final internal state: the loop
over root folders threading `(query_ct, buffer, accumulator)`, started
from `0` / empty / `[]`. -/
def FolderTree.sliceFull (roots : FolderList) (n : Nat) :
    Option SliceState :=
  FolderList._parse_tree roots
    (sliceThreshold (FolderTree.total_queries roots) n) []
    (0, Buffer.empty, [])

/-- Embeds `FolderTree.slice(n)`: the Python method returns only the
accumulator; the final `query_ct` and the leftover buffer are discarded. -/
def FolderTree.slice (roots : FolderList) (n : Nat) :
    Option (List SliceData) :=
  (FolderTree.sliceFull roots n).map (fun st => st.2.2)

/-- All dashboard ids of all folders of the tree, in visit order. -/
def treeDashboardIds (roots : FolderList) : List Int :=
  ((FolderList.preorder roots []).map Visit.dashboards).flatten

/-- All look ids of all folders of the tree, in visit order. -/
def treeLookIds (roots : FolderList) : List Int :=
  ((FolderList.preorder roots []).map Visit.looks).flatten

/-- The dashboard ids a slice run can ever buffer: those of folders whose
`content_metadata_id` is truthy (step 2 of the visit skips the rest). -/
def grantableDashboardIds (roots : FolderList) : List Int :=
  ((FolderList.preorder roots []).map
    (fun v => if v.content_metadata_id.isSome then v.dashboards else [])).flatten

/-- The look ids a slice run can ever buffer. -/
def grantableLookIds (roots : FolderList) : List Int :=
  ((FolderList.preorder roots []).map
    (fun v => if v.content_metadata_id.isSome then v.looks else [])).flatten

/-- Folding `visitStep` over an explicit visit sequence; equal to
`_parse_tree` on the tree's pre-order sequence (proved below). -/
def visitFold (threshold : Nat) (vs : List Visit) (st : SliceState) :
    Option SliceState :=
  match vs with
  | [] => some st
  | v :: rest =>
    match visitStep threshold v st with
    | none => none
    | some st' => visitFold threshold rest st'

example : FolderTree.slice (.cons (.node (some 1) 1 [] [9] .nil) .nil) 1
    = some [⟨1, [1], [], [9]⟩] := by decide

/-- The worked example of spec §8: root (q=0, cm=1) with children
A (q=3, cm=2) and B (q=4, cm=null); `slice(tree, 2)` emits a single
slice `{queries: 7, content_metadata: [1, 2], ...}`. -/
example :
    FolderTree.slice
      (.cons (.node (some 1) 0 [] []
        (.cons (.node (some 2) 3 [] [20, 21, 22]
          (.nil))
        (.cons (.node none 4 [] [30, 31, 32, 33] .nil) .nil))) .nil) 2
    = some [⟨7, [1, 2], [], [20, 21, 22]⟩] := by decide

theorem visitFold_append (threshold : Nat) (xs ys : List Visit)
    (st : SliceState) :
    visitFold threshold (xs ++ ys) st =
      match visitFold threshold xs st with
      | none => none
      | some st' => visitFold threshold ys st' := by
  induction xs generalizing st with
  | nil => simp [visitFold]
  | cons v rest ih =>
    simp only [List.cons_append, visitFold]
    cases visitStep threshold v st with
    | none => rfl
    | some st' => exact ih st'

mutual
/-- Theorem: `_parse_tree` is the fold of the per-node visit over the pre-order
visit sequence of the subtree. -/
theorem parse_eq_fold (f : LookerFolder) (threshold : Nat)
    (ancestors : List (Option Int)) (st : SliceState) :
    _parse_tree f threshold ancestors st =
      visitFold threshold (preorder f ancestors) st := by
  match f with
  | .node c q d l cs =>
    rw [_parse_tree, preorder, visitFold]
    cases visitStep threshold ⟨c, q, d, l, c :: ancestors⟩ st with
    | none => rfl
    | some st' => exact parse_eq_fold_list cs threshold (c :: ancestors) st'
/-- The root/sibling loop is the fold over the concatenated pre-order
visit sequences. -/
theorem parse_eq_fold_list (fs : FolderList) (threshold : Nat)
    (ancestors : List (Option Int)) (st : SliceState) :
    FolderList._parse_tree fs threshold ancestors st =
      visitFold threshold (FolderList.preorder fs ancestors) st := by
  match fs with
  | .nil => rfl
  | .cons f rest =>
    rw [FolderList._parse_tree, FolderList.preorder, visitFold_append,
      parse_eq_fold f threshold ancestors st]
    cases visitFold threshold (preorder f ancestors) st with
    | none => rfl
    | some st' => exact parse_eq_fold_list rest threshold ancestors st'
end

theorem collectInts_map_some :
    ∀ {l : List (Option Int)} {l' : List Int},
      collectInts l = some l' → l = l'.map some := by
  intro l
  induction l with
  | nil => intro l' h; simp [collectInts] at h; simp [← h]
  | cons o rest ih =>
    intro l' h
    match o with
    | none => simp [collectInts] at h
    | some x =>
      simp only [collectInts, Option.map_eq_some'] at h
      obtain ⟨t, ht, rfl⟩ := h
      simp [ih ht]

theorem emitContent_sorted {content : List (Option Int)} {cm : List Int}
    (h : emitContent content = some cm) : cm.Sorted (· < ·) := by
  simp only [emitContent, Option.map_eq_some'] at h
  obtain ⟨l0, hl0, rfl⟩ := h
  have hnd : l0.Nodup := by
    have := collectInts_map_some hl0
    have hdn : (List.dedup content).Nodup := List.nodup_dedup content
    rw [this] at hdn
    exact List.Nodup.of_map _ hdn
  have hsorted : (List.insertionSort (· ≤ ·) l0).Sorted (· ≤ ·) :=
    List.sorted_insertionSort (· ≤ ·) l0
  have hnd' : (List.insertionSort (· ≤ ·) l0).Nodup :=
    (List.perm_insertionSort (· ≤ ·) l0).nodup_iff.mpr hnd
  exact List.Sorted.lt_of_le hsorted hnd'

/-- What one visit does to the state: the accumulator is only appended
to, emitted slices carry the full running count (at least the threshold)
and sorted duplicate-free content ids, the buffered dashboard/look ids
are conserved (moved into the emitted slice or kept in the buffer, with
the visited node contributing its own ids exactly when its
`content_metadata_id` is truthy), and a running count strictly below a
positive threshold stays strictly below it. -/
theorem visitStep_spec {threshold : Nat} {v : Visit} {ct : Nat}
    {buf : Buffer} {acc : List SliceData} {out : SliceState}
    (h : visitStep threshold v (ct, buf, acc) = some out) :
    ∃ new, out.2.2 = acc ++ new ∧
      out.1 + (new.map SliceData.queries).sum = ct + v.queries ∧
      (∀ s ∈ new, threshold ≤ s.queries ∧
        s.content_metadata.Sorted (· < ·)) ∧
      (new.map SliceData.dashboards).flatten ++ out.2.1.dashboards =
        buf.dashboards ++
          (if v.content_metadata_id.isSome then v.dashboards else []) ∧
      (new.map SliceData.looks).flatten ++ out.2.1.looks =
        buf.looks ++
          (if v.content_metadata_id.isSome then v.looks else []) ∧
      (0 < threshold → ct < threshold → out.1 < threshold) := by
  simp only [visitStep] at h
  set buffer : Buffer :=
    if v.content_metadata_id.isSome then
      { content := buf.content ++ fetch_parent_chain v.chain,
        dashboards := buf.dashboards ++ v.dashboards,
        looks := buf.looks ++ v.looks }
    else buf with hbuffer
  have hdash : buffer.dashboards =
      buf.dashboards ++
        (if v.content_metadata_id.isSome then v.dashboards else []) := by
    by_cases hc : v.content_metadata_id.isSome <;> simp [hbuffer, hc]
  have hlooks : buffer.looks =
      buf.looks ++
        (if v.content_metadata_id.isSome then v.looks else []) := by
    by_cases hc : v.content_metadata_id.isSome <;> simp [hbuffer, hc]
  by_cases hth : threshold ≤ ct + v.queries
  · rw [if_pos hth] at h
    cases hemit : emitContent buffer.content with
    | none => rw [hemit] at h; exact absurd h (by simp)
    | some cm =>
      rw [hemit] at h
      obtain rfl : (0, Buffer.empty,
          acc ++ [⟨ct + v.queries, cm, buffer.dashboards, buffer.looks⟩])
          = out := by exact Option.some.inj h
      refine ⟨[⟨ct + v.queries, cm, buffer.dashboards, buffer.looks⟩],
        rfl, by simp, ?_, ?_, ?_, ?_⟩
      · intro s hs
        simp only [List.mem_singleton] at hs
        subst hs
        exact ⟨hth, emitContent_sorted hemit⟩
      · simpa [Buffer.empty] using hdash
      · simpa [Buffer.empty] using hlooks
      · intro hpos _; exact hpos
  · rw [if_neg hth] at h
    obtain rfl : (ct + v.queries, buffer, acc) = out := Option.some.inj h
    exact ⟨[], by simp, by simp, by simp, by simpa using hdash,
      by simpa using hlooks, fun _ _ => Nat.lt_of_not_le hth⟩

/-- The running invariant of a whole depth-first walk, obtained by
folding `visitStep_spec` along the visit sequence. -/
theorem visitFold_spec {threshold : Nat} :
    ∀ {vs : List Visit} {ct : Nat} {buf : Buffer} {acc : List SliceData}
      {out : SliceState},
      visitFold threshold vs (ct, buf, acc) = some out →
      ∃ new, out.2.2 = acc ++ new ∧
        out.1 + (new.map SliceData.queries).sum =
          ct + (vs.map Visit.queries).sum ∧
        (∀ s ∈ new, threshold ≤ s.queries ∧
          s.content_metadata.Sorted (· < ·)) ∧
        (new.map SliceData.dashboards).flatten ++ out.2.1.dashboards =
          buf.dashboards ++
            ((vs.map (fun v =>
              if v.content_metadata_id.isSome then v.dashboards
              else [])).flatten) ∧
        (new.map SliceData.looks).flatten ++ out.2.1.looks =
          buf.looks ++
            ((vs.map (fun v =>
              if v.content_metadata_id.isSome then v.looks
              else [])).flatten) ∧
        (0 < threshold → ct < threshold → out.1 < threshold) := by
  intro vs
  induction vs with
  | nil =>
    intro ct buf acc out h
    obtain rfl : (ct, buf, acc) = out := Option.some.inj h
    exact ⟨[], by simp, by simp, by simp, by simp, by simp,
      fun _ hlt => hlt⟩
  | cons v rest ih =>
    intro ct buf acc out h
    simp only [visitFold] at h
    cases hstep : visitStep threshold v (ct, buf, acc) with
    | none => rw [hstep] at h; exact absurd h (by simp)
    | some st' =>
      rw [hstep] at h
      obtain ⟨ct1, buf1, acc1⟩ := st'
      obtain ⟨new1, hacc1, hq1, hmem1, hd1, hl1, hlt1⟩ :=
        visitStep_spec hstep
      obtain ⟨new2, hacc2, hq2, hmem2, hd2, hl2, hlt2⟩ := ih h
      simp only at hacc1 hq1 hd1 hl1 hacc2 hq2 hd2 hl2
      refine ⟨new1 ++ new2, ?_, ?_, ?_, ?_, ?_, ?_⟩
      · rw [hacc2, hacc1, List.append_assoc]
      · simp only [List.map_append, List.sum_append, List.map_cons,
          List.sum_cons]
        omega
      · intro s hs
        rcases List.mem_append.mp hs with h1 | h2
        · exact hmem1 s h1
        · exact hmem2 s h2
      · simp only [List.map_append, List.flatten_append, List.map_cons,
          List.flatten_cons, List.append_assoc] at hd2 ⊢
        rw [hd2, ← List.append_assoc, hd1, List.append_assoc]
      · simp only [List.map_append, List.flatten_append, List.map_cons,
          List.flatten_cons, List.append_assoc] at hl2 ⊢
        rw [hl2, ← List.append_assoc, hl1, List.append_assoc]
      · intro hpos hlt
        exact hlt2 hpos (hlt1 hpos hlt)

theorem sliceFull_eq_fold (roots : FolderList) (n : Nat) :
    FolderTree.sliceFull roots n =
      visitFold (sliceThreshold (FolderTree.total_queries roots) n)
        (FolderList.preorder roots []) (0, Buffer.empty, []) :=
  parse_eq_fold_list roots _ [] _

theorem sum_map_queries_zero :
    ∀ {vs : List Visit}, (vs.map Visit.queries).sum = 0 →
      ∀ v ∈ vs, v.queries = 0 := by
  intro vs
  induction vs with
  | nil => intro _ v hv; simp at hv
  | cons w rest ih =>
    intro h v hv
    simp only [List.map_cons, List.sum_cons, Nat.add_eq_zero] at h
    rcases List.mem_cons.mp hv with rfl | hv'
    · exact h.1
    · exact ih h.2 v hv'

/-- With a positive threshold, a walk over zero-query visits never emits:
the accumulator is returned unchanged and the count stays `0`. -/
theorem visitFold_zero {T : Nat} (hT : 0 < T) :
    ∀ (vs : List Visit) (buf : Buffer) (acc : List SliceData),
      (∀ v ∈ vs, v.queries = 0) →
      ∃ buf', visitFold T vs (0, buf, acc) = some (0, buf', acc) := by
  intro vs
  induction vs with
  | nil => intro buf acc _; exact ⟨buf, rfl⟩
  | cons v rest ih =>
    intro buf acc h
    have hq : v.queries = 0 := h v (List.mem_cons_self v rest)
    have hstep : ∀ buf0 : Buffer,
        visitStep T v (0, buf0, acc) =
          some (0,
            (if v.content_metadata_id.isSome then
              { content := buf0.content ++ fetch_parent_chain v.chain,
                dashboards := buf0.dashboards ++ v.dashboards,
                looks := buf0.looks ++ v.looks }
            else buf0), acc) := by
      intro buf0
      simp only [visitStep, hq, Nat.add_zero]
      rw [if_neg (by omega)]
    obtain ⟨buf', hbuf'⟩ :=
      ih (if v.content_metadata_id.isSome then
            { content := buf.content ++ fetch_parent_chain v.chain,
              dashboards := buf.dashboards ++ v.dashboards,
              looks := buf.looks ++ v.looks }
          else buf) acc (fun w hw => h w (List.mem_cons_of_mem v hw))
    refine ⟨buf', ?_⟩
    simp only [visitFold, hstep buf]
    exact hbuf'

/-- Example tree for C1's counterexample: one root folder with a null
`content_metadata_id` owning dashboard `7` and one look (one query). -/
def exNullCmFolder : FolderList :=
  .cons (.node none 1 [7] [11] .nil) .nil

/-- Example forest for C1's witness: three root folders with queries
2, 2, 1 and dashboards 4, 5, 6. -/
def exThreeRoots : FolderList :=
  .cons (.node (some 1) 2 [4] [] .nil)
    (.cons (.node (some 2) 2 [5] [] .nil)
      (.cons (.node (some 3) 1 [6] [] .nil) .nil))

/-- Example forest for C2's counterexample: total queries 0, two roots,
the second with a null `content_metadata_id` owning dashboard `5`. -/
def exZeroTotal : FolderList :=
  .cons (.node (some 1) 0 [] [] .nil)
    (.cons (.node none 0 [5] [] .nil) .nil)

/-- Example tree for C2's witness: one root with one look (one query). -/
def exOneLook : FolderList :=
  .cons (.node (some 1) 1 [] [9] .nil) .nil

/-- Example tree for C4's counterexample: a single zero-query folder. -/
def exOneEmptyFolder : FolderList :=
  .cons (.node (some 1) 0 [] [] .nil) .nil

/-- Example forest for C4's witness: two zero-query folders, one with
content attached (a dashboard with no query elements). -/
def exTwoEmptyFolders : FolderList :=
  .cons (.node (some 1) 0 [3] [] .nil)
    (.cons (.node (some 2) 0 [] [] .nil) .nil)

/-- C1 (counterexample): the claim says the union of all slices'
dashboard ids equals the dashboard ids of all folders of the tree, with
only trailing-buffer ids missing.  On a tree whose only folder has a
null `content_metadata_id`, dashboard `7` and look `11` belong to the
tree but appear in no slice and not in the trailing buffer either: the
emitted slice is empty of content and the final buffer is empty. -/
theorem slice_union_counterexample :
    FolderTree.sliceFull exNullCmFolder 2 =
      some (0, Buffer.empty, [⟨1, [], [], []⟩]) ∧
    treeDashboardIds exNullCmFolder = [7] ∧
    treeLookIds exNullCmFolder = [11] := by decide

/-- C1 (amended): for `n > 1`, when `slice` returns, the concatenation
of the slices' dashboard ids followed by the trailing buffer's dashboard
ids is exactly the dashboard ids of the folders whose
`content_metadata_id` is truthy, in visit order (so each such id occurs
exactly once across slices and buffer, and ids of null-metadata folders
occur nowhere); likewise for look ids; and when those grantable ids are
pairwise distinct, no id appears in more than one slice. -/
theorem slice_partitions_grantable (roots : FolderList) (n ct : Nat)
    (buf : Buffer) (ss : List SliceData) (_hn : 1 < n)
    (h : FolderTree.sliceFull roots n = some (ct, buf, ss)) :
    ((ss.map SliceData.dashboards).flatten ++ buf.dashboards =
      grantableDashboardIds roots) ∧
    ((ss.map SliceData.looks).flatten ++ buf.looks =
      grantableLookIds roots) ∧
    ((grantableDashboardIds roots).Nodup →
      ss.Pairwise (fun a b => a.dashboards.Disjoint b.dashboards)) ∧
    ((grantableLookIds roots).Nodup →
      ss.Pairwise (fun a b => a.looks.Disjoint b.looks)) := by
  rw [sliceFull_eq_fold] at h
  obtain ⟨new, hacc, _, _, hd, hl, _⟩ := visitFold_spec h
  simp only [List.nil_append] at hacc
  obtain rfl : ss = new := hacc
  simp only [Buffer.empty, List.nil_append] at hd hl
  have hd' : (ss.map SliceData.dashboards).flatten ++ buf.dashboards =
      grantableDashboardIds roots := hd
  have hl' : (ss.map SliceData.looks).flatten ++ buf.looks =
      grantableLookIds roots := hl
  refine ⟨hd', hl', ?_, ?_⟩
  · intro hnd
    rw [← hd'] at hnd
    have h1 : ((ss.map SliceData.dashboards).flatten).Nodup :=
      List.Nodup.of_append_left hnd
    exact List.pairwise_map.mp (List.nodup_flatten.mp h1).2
  · intro hnd
    rw [← hl'] at hnd
    have h1 : ((ss.map SliceData.looks).flatten).Nodup :=
      List.Nodup.of_append_left hnd
    exact List.pairwise_map.mp (List.nodup_flatten.mp h1).2

/-- Witness for the amended C1 at a concrete three-root forest sliced
with `n = 2`: one slice is emitted and the third root's content stays in
the trailing buffer. -/
theorem slice_partitions_grantable_witness :
    (([(⟨4, [1, 2], [4, 5], []⟩ : SliceData)].map
        SliceData.dashboards).flatten ++ [6] =
      grantableDashboardIds exThreeRoots) ∧
    (([(⟨4, [1, 2], [4, 5], []⟩ : SliceData)].map
        SliceData.looks).flatten ++ [] =
      grantableLookIds exThreeRoots) :=
  ⟨(slice_partitions_grantable exThreeRoots 2 1 ⟨[some 3], [6], []⟩
      [⟨4, [1, 2], [4, 5], []⟩] (by decide) (by decide)).1,
   (slice_partitions_grantable exThreeRoots 2 1 ⟨[some 3], [6], []⟩
      [⟨4, [1, 2], [4, 5], []⟩] (by decide) (by decide)).2.1⟩

/-- C2 (counterexample): on a tree with `totalQueries == 0` (two roots,
the second holding dashboard `5` under a null `content_metadata_id`),
`slice(tree, 1)` computes threshold `0` and emits one slice per visited
node: two slices, not exactly one, and dashboard `5` of the tree appears
in neither. -/
theorem slice_one_counterexample :
    FolderTree.slice exZeroTotal 1 =
      some [⟨0, [1], [], []⟩, ⟨0, [], [], []⟩] ∧
    treeDashboardIds exZeroTotal = [5] := by decide

/-- C2 (amended): for every tree with `totalQueries > 0`, when
`slice(tree, 1)` returns it returns exactly one slice, and that slice's
`queries` equals `totalQueries` (the completeness part of the original
claim fails: content visited after the folder at which the running count
reaches the total, and content of null-metadata folders, is absent). -/
theorem slice_one_of_pos (roots : FolderList) (ss : List SliceData)
    (hpos : 0 < FolderTree.total_queries roots)
    (h : FolderTree.slice roots 1 = some ss) :
    ss.map SliceData.queries = [FolderTree.total_queries roots] := by
  have hthr : sliceThreshold (FolderTree.total_queries roots) 1 =
      FolderTree.total_queries roots := by simp [sliceThreshold]
  unfold FolderTree.slice at h
  cases hfull : FolderTree.sliceFull roots 1 with
  | none => rw [hfull] at h; exact absurd h (by simp)
  | some st =>
    rw [hfull] at h
    obtain ⟨ct, buf, acc⟩ := st
    have hss : acc = ss := by simpa using h
    rw [sliceFull_eq_fold, hthr] at hfull
    obtain ⟨new, hacc, hsum, hmem, _, _, hlt⟩ := visitFold_spec hfull
    simp only [List.nil_append] at hacc
    rw [← hss, hacc]
    have htot : ((FolderList.preorder roots []).map Visit.queries).sum =
        FolderTree.total_queries roots := rfl
    rw [htot] at hsum
    simp only at hsum hlt
    have hctlt : ct < FolderTree.total_queries roots := hlt hpos hpos
    match new, hsum, hmem with
    | [], hsum, _ => exfalso; simp at hsum; omega
    | s :: rest, hsum, hmem =>
      have hs : FolderTree.total_queries roots ≤ s.queries :=
        (hmem s (List.mem_cons_self s rest)).1
      match rest, hsum, hmem with
      | [], hsum, _ =>
        simp only [List.map_cons, List.map_nil, List.sum_cons,
          List.sum_nil] at hsum
        have : s.queries = FolderTree.total_queries roots := by omega
        simp [this]
      | r :: rr, hsum, hmem =>
        exfalso
        have hr : FolderTree.total_queries roots ≤ r.queries :=
          (hmem r (List.mem_cons_of_mem s
            (List.mem_cons_self r rr))).1
        simp only [List.map_cons, List.sum_cons] at hsum
        omega

/-- Witness for the amended C2 at a one-folder, one-look tree. -/
theorem slice_one_of_pos_witness :
    ([(⟨1, [1], [], [9]⟩ : SliceData)].map SliceData.queries) =
      [FolderTree.total_queries exOneLook] :=
  slice_one_of_pos exOneLook [⟨1, [1], [], [9]⟩] (by decide) (by decide)

/-- C3: `slice` returns exactly the accumulator of emitted slices — the
leftover buffer after the last root is discarded, never appended — and a
slice is only ever emitted when the running count has reached the
threshold, so every returned slice has `queries >= threshold`. -/
theorem slice_emits_only_at_threshold (roots : FolderList)
    (n ct : Nat) (buf : Buffer) (ss : List SliceData)
    (h : FolderTree.sliceFull roots n = some (ct, buf, ss)) :
    FolderTree.slice roots n = some ss ∧
    ∀ s ∈ ss,
      sliceThreshold (FolderTree.total_queries roots) n ≤ s.queries := by
  refine ⟨by simp [FolderTree.slice, h], ?_⟩
  rw [sliceFull_eq_fold] at h
  obtain ⟨new, hacc, _, hmem, _⟩ := visitFold_spec h
  simp only [List.nil_append] at hacc
  obtain rfl : ss = new := hacc
  intro s hs
  exact (hmem s hs).1

/-- Witness for C3: the single slice of the one-look tree at `n = 1`
meets the threshold `1`. -/
theorem slice_emits_only_at_threshold_witness :
    sliceThreshold (FolderTree.total_queries exOneLook) 1 ≤
      (⟨1, [1], [], [9]⟩ : SliceData).queries :=
  (slice_emits_only_at_threshold exOneLook 1 0 Buffer.empty
      [⟨1, [1], [], [9]⟩] (by decide)).2
    ⟨1, [1], [], [9]⟩ (List.mem_singleton.mpr rfl)

/-- C4 (counterexample): on a tree with `totalQueries == 0` and
`n = 2 > 1`, the code computes `threshold = 0 // 2 + 1 = 1`, not `0` as
the claim states, and since no visit can reach a positive threshold with
zero queries anywhere, the result is the empty sequence of slices — not
one near-empty slice for the one visited node. -/
theorem zero_total_counterexample :
    sliceThreshold (FolderTree.total_queries exOneEmptyFolder) 2 = 1 ∧
    FolderTree.slice exOneEmptyFolder 2 = some [] ∧
    (FolderList.preorder exOneEmptyFolder []).length = 1 := by decide

/-- C4 (amended): for every tree with `totalQueries == 0` and every
`n > 1`, the threshold is `1` (`0 // n + 1`), no visited node ever
reaches it, and `slice` returns the empty sequence — every folder's
content ends in the discarded trailing buffer. -/
theorem slice_zero_total (roots : FolderList) (n : Nat)
    (h0 : FolderTree.total_queries roots = 0) (hn : 1 < n) :
    sliceThreshold (FolderTree.total_queries roots) n = 1 ∧
    FolderTree.slice roots n = some [] := by
  have hthr : sliceThreshold (FolderTree.total_queries roots) n = 1 := by
    rw [h0]; simp [sliceThreshold, hn]
  refine ⟨hthr, ?_⟩
  unfold FolderTree.slice
  rw [sliceFull_eq_fold, hthr]
  have h0' : ((FolderList.preorder roots []).map Visit.queries).sum = 0 := h0
  obtain ⟨buf', hbuf'⟩ := @visitFold_zero 1 (by omega)
    (FolderList.preorder roots []) Buffer.empty []
    (sum_map_queries_zero h0')
  rw [hbuf']
  rfl

/-- Witness for the amended C4 at a two-folder, zero-query forest. -/
theorem slice_zero_total_witness :
    sliceThreshold (FolderTree.total_queries exTwoEmptyFolders) 3 = 1 ∧
    FolderTree.slice exTwoEmptyFolders 3 = some [] :=
  slice_zero_total exTwoEmptyFolders 3 (by decide) (by decide)

/-- C6: every emitted slice's `content_metadata` list is strictly
ascending in numeric value (hence sorted ascending with no duplicate
ids). -/
theorem slice_content_metadata_sorted (roots : FolderList) (n : Nat)
    (ss : List SliceData) (h : FolderTree.slice roots n = some ss) :
    ∀ s ∈ ss, s.content_metadata.Sorted (· < ·) ∧
      s.content_metadata.Nodup := by
  unfold FolderTree.slice at h
  cases hfull : FolderTree.sliceFull roots n with
  | none => rw [hfull] at h; exact absurd h (by simp)
  | some st =>
    rw [hfull] at h
    obtain ⟨ct, buf, acc⟩ := st
    have hss : acc = ss := by simpa using h
    rw [sliceFull_eq_fold] at hfull
    obtain ⟨new, hacc, _, hmem, _⟩ := visitFold_spec hfull
    simp only [List.nil_append] at hacc
    intro s hs
    have hsnew : s ∈ new := by rw [← hacc, hss]; exact hs
    have hsorted := (hmem s hsnew).2
    exact ⟨hsorted, hsorted.nodup⟩

/-- Witness for C6 at the three-root forest: the emitted slice's content
ids `[1, 2]` are strictly sorted and duplicate-free. -/
theorem slice_content_metadata_sorted_witness :
    ([1, 2] : List Int).Sorted (· < ·) ∧ ([1, 2] : List Int).Nodup :=
  slice_content_metadata_sorted exThreeRoots 2
    [⟨4, [1, 2], [4, 5], []⟩] (by decide)
    ⟨4, [1, 2], [4, 5], []⟩ (List.mem_singleton.mpr rfl)

/-- C5: a visited node with a truthy `content_metadata_id` extends the
buffer by exactly the deduplicated chain of `content_metadata_id` values
of itself and all of its ancestors, its own dashboard ids and its own
look ids, before recursing into its children; a visited node with a null
`content_metadata_id` adds its queries to the running count but leaves
the buffer untouched.  (Stated for a visit that stays below the
threshold, so that the updated buffer is what flows into the children.) -/
theorem visit_buffer_gain (c : Int) (q : Nat) (d l : List Int)
    (cs : FolderList) (T : Nat) (anc : List (Option Int)) (ct : Nat)
    (buf : Buffer) (acc : List SliceData) (h : ct + q < T) :
    (_parse_tree (.node (some c) q d l cs) T anc (ct, buf, acc) =
      FolderList._parse_tree cs T (some c :: anc)
        (ct + q,
         { content := buf.content ++ fetch_parent_chain (some c :: anc),
           dashboards := buf.dashboards ++ d,
           looks := buf.looks ++ l }, acc)) ∧
    (_parse_tree (.node none q d l cs) T anc (ct, buf, acc) =
      FolderList._parse_tree cs T (none :: anc) (ct + q, buf, acc)) ∧
    (fetch_parent_chain (some c :: anc)).Nodup := by
  refine ⟨?_, ?_, List.nodup_dedup _⟩
  · rw [_parse_tree]
    simp [visitStep, Nat.not_le.mpr h]
  · rw [_parse_tree]
    simp [visitStep, Nat.not_le.mpr h]

/-- Witness for C5 at a concrete node under ancestor chain `[some 4]`. -/
theorem visit_buffer_gain_witness :
    (0 + 1 < 5) ∧
    ((_parse_tree (.node (some 1) 1 [2] [3] .nil) 5 [some 4]
        (0, Buffer.empty, []) =
      FolderList._parse_tree .nil 5 (some 1 :: [some 4])
        (0 + 1,
         { content := Buffer.empty.content ++
             fetch_parent_chain (some 1 :: [some 4]),
           dashboards := Buffer.empty.dashboards ++ [2],
           looks := Buffer.empty.looks ++ [3] }, [])) ∧
    (_parse_tree (.node none 1 [2] [3] .nil) 5 [some 4]
        (0, Buffer.empty, []) =
      FolderList._parse_tree .nil 5 (none :: [some 4])
        (0 + 1, Buffer.empty, [])) ∧
    (fetch_parent_chain (some 1 :: [some 4])).Nodup) :=
  ⟨by decide, visit_buffer_gain 1 1 [2] [3] .nil 5 [some 4] 0
    Buffer.empty [] (by decide)⟩

/-- Example tree for C9: a root with a null `content_metadata_id` whose
child carries content and one query. -/
def exNullAncestor : FolderList :=
  .cons (.node none 0 [] []
    (.cons (.node (some 2) 1 [] [8] .nil) .nil)) .nil

/-- The same tree with the root's metadata id filled in. -/
def exFilledAncestor : FolderList :=
  .cons (.node (some 3) 0 [] []
    (.cons (.node (some 2) 1 [] [8] .nil) .nil)) .nil

/-- C9: slice emission applies `int(x)` to every collected id with no
null guard, so slicing a tree in which a content-bearing folder sits
below an ancestor with a null `content_metadata_id` raises (modelled as
`none`) instead of returning; the same tree with the ancestor's id
filled in slices fine. -/
theorem slice_null_ancestor_raises :
    FolderTree.slice exNullAncestor 2 = none ∧
    FolderTree.slice exFilledAncestor 2 =
      some [⟨1, [2, 3], [], [8]⟩] := by decide

/-!
Embedding of `ValidatorRunner` (`src/validator/models.py`, lines
239-342) and of the configuration path of `src/main.py`.  Remote calls
are modelled by oracles: a grant call's outcome is a function of the
metadata id, and a session call's raising behaviour is a boolean per
call.
-/

/-- Outcome of one `create_content_metadata_access` call: normal return,
or an `SDKError` whose decoded payload carries `message`. -/
inductive GrantOutcome : Type where
  | success : GrantOutcome
  | sdkError (message : String) : GrantOutcome
  deriving DecidableEq, Repr

/-- Substring test over character lists (executable, structural). -/
def containsSub (pat : List Char) : List Char → Bool
  | [] => pat.isEmpty
  | c :: rest => pat.isPrefixOf (c :: rest) || containsSub pat rest

/-- Python `'already has access' in message` (substring test). -/
def mentionsAlreadyHasAccess (message : String) : Bool :=
  containsSub (String.toList ("already has access")) message.toList

/-- Embeds `ValidatorRunner._amend_content_metadata` restricted to one target
user: fold over `metadata_ids`; an id already in
`self.metadata_added[target_user]` issues no call; otherwise the grant
call is issued, a success appends the id to the granted list, and an
`SDKError` — whether or not its message mentions "already has access"
(the two `except` branches differ only in printing) — leaves the list
unchanged and continues with the next id. -/
def _amend_content_metadata (grant : Int → GrantOutcome) :
    List Int → List Int → List Int
  | metadata_added, [] => metadata_added
  | metadata_added, metadata :: rest =>
    let metadata_added' :=
      if metadata ∈ metadata_added then metadata_added
      else
        match grant metadata with
        | .success => metadata_added ++ [metadata]
        | .sdkError message =>
          if mentionsAlreadyHasAccess message then metadata_added
          else metadata_added
    _amend_content_metadata grant metadata_added' rest

/-- A grant oracle that always reports the user already has access. -/
def alreadyHasAccessGrant : Int → GrantOutcome :=
  fun _ => .sdkError ("User 9 already has access to this content")

/-- C7 (counterexample): a grant call failing with a message containing
"already has access" does NOT record the id as granted — the recorded
list stays empty — whereas an actually successful call does record it.
The claim that the two are treated identically is false. -/
theorem grant_already_has_access_not_recorded :
    _amend_content_metadata alreadyHasAccessGrant [] [5] = [] ∧
    mentionsAlreadyHasAccess
      ("User 9 already has access to this content") = true ∧
    _amend_content_metadata (fun _ => .success) [] [5] = [5] := by
  decide

/-- C7 (amended): an id ends up recorded as granted for the user exactly
when it was already recorded or the grant call for it succeeds; every
failing grant call — including one whose message contains "already has
access" — leaves the id unrecorded, raises nothing, and the loop
proceeds (the fold is total). -/
theorem amend_records_iff (grant : Int → GrantOutcome)
    (metadata_added metadata_ids : List Int) (m : Int) :
    m ∈ _amend_content_metadata grant metadata_added metadata_ids ↔
      m ∈ metadata_added ∨
        (m ∈ metadata_ids ∧ grant m = .success) := by
  induction metadata_ids generalizing metadata_added with
  | nil => simp [_amend_content_metadata]
  | cons i rest ih =>
    rw [_amend_content_metadata]
    by_cases hmem : i ∈ metadata_added
    · rw [if_pos hmem]
      rw [ih]
      constructor
      · rintro (h | ⟨h, hg⟩)
        · exact Or.inl h
        · exact Or.inr ⟨List.mem_cons_of_mem i h, hg⟩
      · rintro (h | ⟨h, hg⟩)
        · exact Or.inl h
        · rcases List.mem_cons.mp h with rfl | h'
          · exact Or.inl hmem
          · exact Or.inr ⟨h', hg⟩
    · rw [if_neg hmem]
      cases hgi : grant i with
      | success =>
        rw [ih]
        constructor
        · rintro (h | ⟨h, hg⟩)
          · rcases List.mem_append.mp h with h' | h'
            · exact Or.inl h'
            · obtain rfl : m = i := by simpa using h'
              exact Or.inr ⟨List.mem_cons_self m rest, hgi⟩
          · exact Or.inr ⟨List.mem_cons_of_mem i h, hg⟩
        · rintro (h | ⟨h, hg⟩)
          · exact Or.inl (List.mem_append.mpr (Or.inl h))
          · rcases List.mem_cons.mp h with rfl | h'
            · exact Or.inl (List.mem_append.mpr (Or.inr (by simp)))
            · exact Or.inr ⟨h', hg⟩
      | sdkError message =>
        simp only [ite_self]
        rw [ih]
        constructor
        · rintro (h | ⟨h, hg⟩)
          · exact Or.inl h
          · exact Or.inr ⟨List.mem_cons_of_mem i h, hg⟩
        · rintro (h | ⟨h, hg⟩)
          · exact Or.inl h
          · rcases List.mem_cons.mp h with rfl | h'
            · rw [hg] at hgi; exact absurd hgi (by simp)
            · exact Or.inr ⟨h', hg⟩

/-- A grant oracle succeeding only for metadata id `5`. -/
def grantOnlyFive : Int → GrantOutcome :=
  fun m => if m = 5 then .success else .sdkError ("boom")

/-- Witness for the amended C7: over ids `[5, 6]`, `5` (successful
grant) is recorded and `6` (failed grant) is not. -/
theorem amend_records_iff_witness :
    5 ∈ _amend_content_metadata grantOnlyFive [] [5, 6] ∧
    6 ∉ _amend_content_metadata grantOnlyFive [] [5, 6] :=
  ⟨(amend_records_iff grantOnlyFive [] [5, 6] 5).mpr
      (Or.inr ⟨by decide, by decide⟩),
    fun h => by
      rcases (amend_records_iff grantOnlyFive [] [5, 6] 6).mp h with
        h1 | ⟨_, h2⟩
      · exact absurd h1 (by decide)
      · exact absurd h2 (by decide)⟩

/-- Python `str(x)` on the optional user id: `str(None) == "None"`,
`str(u)` otherwise (`main.py` line 25 and `ValidatorRunner.__init__`
line 243 both apply it; the composition is idempotent). -/
def pyStr : Option Int → String
  | none => "None"
  | some u => toString u

/-- Python truthiness of `args.user` (an optional int: `None` and `0`
are falsy). -/
def pyTruthy : Option Int → Bool
  | none => false
  | some u => u != 0

/-- The three-way branch of `ValidatorRunner.run_validation_from_slices`
(lines 290-303 of `models.py`): `if self.target_user: <grant and
validate>` / `elif self.create_users: ...` (a no-op Ellipsis) / `else:
raise ValueError(...)`. -/
inductive RunBranch : Type where
  | validate (target_user : String) : RunBranch
  | create_users_noop : RunBranch
  | config_error : RunBranch
  deriving DecidableEq, Repr

def run_branch (target_user : String) (create_users : Bool) :
    RunBranch :=
  if target_user ≠ "" then .validate target_user
  else if create_users then .create_users_noop
  else .config_error

/-- The configuration path of `src/main.py`: `cli()` raises a
`ValueError` unless `args.create_users or args.user` is truthy;
otherwise the runner is built with `target_user=str(args.user)` and each
slice is processed through the branch above. -/
def main_flow (user : Option Int) (create_users : Bool) :
    Except String RunBranch :=
  if ¬(create_users || pyTruthy user) then
    .error ("Must either name a user or choose to create users")
  else
    .ok (run_branch (pyStr user) create_users)

/-- C8 (code bug, evaluated at the failing input): with neither user nor
create mode the CLI does fail before anything runs, but with
user-creation selected and no user configured the run does NOT fail
with a configuration error: `str(None)` is the truthy string `"None"`,
so every slice is processed down the validate path (grant and
validation calls for the bogus user `"None"`), and the `raise
ValueError` guard of `run_validation_from_slices` is unreachable. -/
theorem create_users_proceeds_with_none_user :
    main_flow none false =
      .error ("Must either name a user or choose to create users") ∧
    main_flow none true = .ok (.validate ("None")) ∧
    run_branch (pyStr none) true ≠ .config_error :=
  ⟨rfl, rfl, by decide⟩

/-- The remote calls `ValidatorRunner._run_validation` performs. -/
inductive ApiCall : Type where
  | user_lookup (target_user : String) : ApiCall
  | login_user (target_user : String) : ApiCall
  | content_validation : ApiCall
  | logout : ApiCall
  deriving DecidableEq, Repr

/-- Perform one remote call: record it in the trace, then propagate an
exception (`Except.error`) if the call raises. -/
def callStep (fails : ApiCall → Bool) (trace : List ApiCall)
    (c : ApiCall) : Except (List ApiCall) (List ApiCall) :=
  if fails c then .error (trace ++ [c]) else .ok (trace ++ [c])

/-- Embeds `ValidatorRunner._run_validation(target_user)` (lines 276-283) as
the trace of the remote calls it performs, in program order:
`_check_fix_access` (a user lookup), `auth.login_user`,
`content_validation`, and finally `auth.logout`.  There is no
try/finally: an exception anywhere aborts the remaining calls, so an
`Except.error` result carries exactly the calls performed up to and
including the raising one. -/
def _run_validation (target_user : String) (fails : ApiCall → Bool) :
    Except (List ApiCall) (List ApiCall) :=
  match callStep fails [] (.user_lookup target_user) with
  | .error t => .error t
  | .ok t1 =>
    match callStep fails t1 (.login_user target_user) with
    | .error t => .error t
    | .ok t2 =>
      match callStep fails t2 .content_validation with
      | .error t => .error t
      | .ok t3 => callStep fails t3 .logout

/-- The calls a run performed, whether or not it raised. -/
def calls : Except (List ApiCall) (List ApiCall) → List ApiCall
  | .error t => t
  | .ok t => t

/-- Did the run raise? -/
def raised : Except (List ApiCall) (List ApiCall) → Bool
  | .error _ => true
  | .ok _ => false

/-- C10: `logout` is invoked only on the success path.  If any call
before it — the access check, `login_user`, or `content_validation`
itself — raises, the run raises and `logout` is never invoked (the
session stays impersonated); if they all return normally, the call
sequence is exactly lookup, login, validation, logout, and the run
returns normally exactly when the logout itself does not raise. -/
theorem logout_only_on_success (u : String) (fails : ApiCall → Bool) :
    ((fails (.user_lookup u) || fails (.login_user u) ||
        fails .content_validation) = true →
      raised (_run_validation u fails) = true ∧
      ApiCall.logout ∉ calls (_run_validation u fails)) ∧
    ((fails (.user_lookup u) || fails (.login_user u) ||
        fails .content_validation) = false →
      calls (_run_validation u fails) =
        [.user_lookup u, .login_user u, .content_validation,
         .logout] ∧
      (raised (_run_validation u fails) = false ↔
        fails .logout = false)) := by
  constructor
  · intro h
    cases hf1 : fails (.user_lookup u) with
    | true =>
      constructor <;>
        simp [_run_validation, callStep, hf1, raised, calls]
    | false =>
      cases hf2 : fails (.login_user u) with
      | true =>
        constructor <;>
          simp [_run_validation, callStep, hf1, hf2, raised, calls]
      | false =>
        cases hf3 : fails .content_validation with
        | true =>
          constructor <;>
            simp [_run_validation, callStep, hf1, hf2, hf3, raised,
              calls]
        | false => rw [hf1, hf2, hf3] at h; simp at h
  · intro h
    rw [Bool.or_eq_false_iff, Bool.or_eq_false_iff] at h
    obtain ⟨⟨hf1, hf2⟩, hf3⟩ := h
    cases hf4 : fails .logout with
    | true =>
      refine ⟨?_, ?_⟩ <;>
        simp [_run_validation, callStep, hf1, hf2, hf3, hf4, raised,
          calls]
    | false =>
      refine ⟨?_, ?_⟩ <;>
        simp [_run_validation, callStep, hf1, hf2, hf3, hf4, raised,
          calls]

/-- A session oracle where only the validation call raises. -/
def failsContentValidation : ApiCall → Bool
  | .content_validation => true
  | _ => false

/-- Witness for C10: when the validation call raises, the run raises and
`logout` was never invoked. -/
theorem logout_only_on_success_witness :
    raised (_run_validation ("7") failsContentValidation) = true ∧
    ApiCall.logout ∉
      calls (_run_validation ("7") failsContentValidation) :=
  (logout_only_on_success ("7") failsContentValidation).1 (by decide)
